import Mathlib

/-!
Verification of the aggregation and reporting logic of a personal finance
tracking web application (transactions, bills, goals, investments).

The development shallowly embeds the relevant functions of the application:
amounts are modelled as rationals, calendar dates as year/month/day triples
compared lexicographically (mirroring the date-only comparison the pages
perform after zeroing the time of day), and the JavaScript floating point
division that can produce NaN or Infinity is modelled by an explicit
`JsNum` type so that the division-by-zero behaviour of the pages is visible.
-/

/-- A calendar date (year, month 1..12, day 1..31), as carried by the
date-typed columns of the store and compared date-only by the pages. -/
structure CalDate where
  year : Int
  month : Nat
  day : Nat
deriving DecidableEq, Repr

/-- Date-only strict comparison, mirroring the JavaScript comparison of the
due date against a today whose time of day has been zeroed
(`today.setHours(0, 0, 0, 0)` in the Bills pages). -/
def calLt (a b : CalDate) : Bool :=
  decide (a.year < b.year ∨ (a.year = b.year ∧
    (a.month < b.month ∨ (a.month = b.month ∧ a.day < b.day))))

/-- Stored status of a bill, constrained by the migration to the three
values paid / pending / overdue. -/
inductive BillStatus where
  | paid
  | pending
  | overdue
deriving DecidableEq, Repr

/-- A bill row, as selected by the Bills pages from the `bills` table. -/
structure Bill where
  id : String
  name : String
  amount : ℚ
  dueDate : CalDate
  status : BillStatus
  category : String
  recurring : Bool
deriving DecidableEq, Repr

/-- The per-bill status derivation performed inside `loadBills` in
`Bills.tsx`: a bill whose stored status is not paid and whose due date is
strictly before today (date-only) is returned with status overdue;
otherwise the bill is returned unchanged. -/
def resolveStatus (today : CalDate) (bill : Bill) : Bill :=
  if bill.status ≠ BillStatus.paid then
    if calLt bill.dueDate today then { bill with status := BillStatus.overdue }
    else bill
  else bill

/-- The list-level derivation of `loadBills`: the status derivation mapped
over every fetched bill. -/
def billsWithStatus (today : CalDate) (bills : List Bill) : List Bill :=
  bills.map (resolveStatus today)

/-- A transaction row from the `transactions` table; `ttype` is
constrained by the migration to income or expense. -/
structure Transaction where
  id : String
  ttype : String
  amount : ℚ
  category : String
  description : String
  date : CalDate
deriving DecidableEq, Repr

/-- An investment row from the `investments` table; `goal_id` is the
optional weak reference to a goal. -/
structure Investment where
  id : String
  name : String
  itype : String
  amount_invested : ℚ
  current_value : ℚ
  purchase_date : CalDate
  goal_id : Option String
deriving DecidableEq, Repr

/-- A goal row from the `goals` table. -/
structure Goal where
  id : String
  title : String
  target_amount : ℚ
  current_amount : ℚ
  deadline : Option CalDate
  category : String
  description : String
deriving DecidableEq, Repr

/-- Total income of `loadDashboardData` in `Dashboard.tsx`: filter the
income transactions and reduce their amounts starting from 0. -/
def totalIncome (ts : List Transaction) : ℚ :=
  (ts.filter (fun t => t.ttype = "income")).foldl (fun s t => s + t.amount) 0

/-- Total expenses of `loadDashboardData`: filter the expense transactions
and reduce their amounts starting from 0. -/
def totalExpenses (ts : List Transaction) : ℚ :=
  (ts.filter (fun t => t.ttype = "expense")).foldl (fun s t => s + t.amount) 0

/-- Investment value of `loadDashboardData`: reduce the `current_value`
fields starting from 0. -/
def investmentValue (is : List Investment) : ℚ :=
  is.foldl (fun s i => s + i.current_value) 0

/-- Net worth as computed by `loadDashboardData` in `Dashboard.tsx` and by
`loadNetWorth` in `App.tsx`: income minus expenses plus investment value. -/
def netWorth (ts : List Transaction) (is : List Investment) : ℚ :=
  totalIncome ts - totalExpenses ts + investmentValue is

/-- A JavaScript number restricted to the values the pages can produce:
a finite rational, NaN, or a signed infinity.  Modelling the numbers this
way keeps the division-by-zero behaviour of the pages observable. -/
inductive JsNum where
  | num (q : ℚ)
  | nan
  | inf
  | ninf
deriving DecidableEq, Repr

/-- JavaScript division on `JsNum`: finite / finite is exact rational
division except that x / 0 is NaN when x = 0 and a signed infinity
otherwise; NaN propagates; infinity divided by a finite value keeps its
sign against the divisor; infinity / infinity is NaN. -/
def jsDiv : JsNum → JsNum → JsNum
  | JsNum.num a, JsNum.num b =>
      if b = 0 then
        if a = 0 then JsNum.nan
        else if 0 < a then JsNum.inf else JsNum.ninf
      else JsNum.num (a / b)
  | JsNum.nan, _ => JsNum.nan
  | _, JsNum.nan => JsNum.nan
  | JsNum.inf, JsNum.num b => if 0 ≤ b then JsNum.inf else JsNum.ninf
  | JsNum.ninf, JsNum.num b => if 0 ≤ b then JsNum.ninf else JsNum.inf
  | JsNum.inf, _ => JsNum.nan
  | JsNum.ninf, _ => JsNum.nan
  | JsNum.num _, JsNum.inf => JsNum.num 0
  | JsNum.num _, JsNum.ninf => JsNum.num 0

/-- JavaScript multiplication on `JsNum`: exact on finite values, NaN
propagates, infinity times zero is NaN, infinity times a nonzero finite
value keeps the sign product. -/
def jsMul : JsNum → JsNum → JsNum
  | JsNum.num a, JsNum.num b => JsNum.num (a * b)
  | JsNum.nan, _ => JsNum.nan
  | _, JsNum.nan => JsNum.nan
  | JsNum.inf, JsNum.num b =>
      if b = 0 then JsNum.nan else if 0 < b then JsNum.inf else JsNum.ninf
  | JsNum.ninf, JsNum.num b =>
      if b = 0 then JsNum.nan else if 0 < b then JsNum.ninf else JsNum.inf
  | JsNum.num a, JsNum.inf =>
      if a = 0 then JsNum.nan else if 0 < a then JsNum.inf else JsNum.ninf
  | JsNum.num a, JsNum.ninf =>
      if a = 0 then JsNum.nan else if 0 < a then JsNum.ninf else JsNum.inf
  | JsNum.inf, JsNum.inf => JsNum.inf
  | JsNum.inf, JsNum.ninf => JsNum.ninf
  | JsNum.ninf, JsNum.inf => JsNum.ninf
  | JsNum.ninf, JsNum.ninf => JsNum.inf

/-- The progress value computed for each goal card in
`InvestmentGoals.tsx`:
`(Number(goal.current_amount) / Number(goal.target_amount)) * 100`,
with no special case for a zero target. -/
def goalProgress (g : Goal) : JsNum :=
  jsMul (jsDiv (JsNum.num g.current_amount) (JsNum.num g.target_amount)) (JsNum.num 100)

/-- One step of the per-category accumulation of `loadAnalysisData` in
`VisualAnalysis.tsx`:
`cats[t.category] = (cats[t.category] || 0) + Number(t.amount)`.
JavaScript object keys keep insertion order, so the accumulator is an
association list that appends a new category at the end. -/
def addCat (acc : List (String × ℚ)) (t : Transaction) : List (String × ℚ) :=
  if acc.any (fun e => e.1 = t.category) then
    acc.map (fun e => if e.1 = t.category then (e.1, e.2 + t.amount) else e)
  else acc ++ [(t.category, t.amount)]

/-- Per-category totals for the already type-filtered transactions of
`loadAnalysisData`. -/
def categoryTotals (ts : List Transaction) : List (String × ℚ) :=
  ts.foldl addCat []

/-- The per-type total of `loadAnalysisData`
(`typed.reduce((sum, t) => sum + Number(t.amount), 0)`). -/
def totalForType (ts : List Transaction) (ty : String) : ℚ :=
  (ts.filter (fun t => t.ttype = ty)).foldl (fun s t => s + t.amount) 0

/-- The category breakdown built by `loadAnalysisData`: rows
`(category, amount, (amount / totalForType) * 100)` with no special case
for a zero total.  The page then sorts the rows by descending amount,
which permutes rows but does not change any percentage value. -/
def categoryBreakdown (ts : List Transaction) (ty : String) : List (String × ℚ × JsNum) :=
  let typed := ts.filter (fun t => t.ttype = ty)
  let total := totalForType ts ty
  (categoryTotals typed).map
    (fun e => (e.1, e.2, jsMul (jsDiv (JsNum.num e.2) (JsNum.num total)) (JsNum.num 100)))

/-- The twelve short month names produced by
`toLocaleDateString('en-US', \x7b month: 'short' \x7d)`. -/
def monthShortNamesEn : List String :=
  ["Jan", "Feb", "Mar", "Apr", "May", "Jun",
   "Jul", "Aug", "Sep", "Oct", "Nov", "Dec"]

/-- The month key used by `loadAnalysisData`:
`new Date(t.date).toLocaleDateString('en-US', \x7b month: 'short', year: 'numeric' \x7d)`,
i.e. the en-US short month name followed by the year, such as Jan 2025. -/
def monthKey (d : CalDate) : String :=
  (monthShortNamesEn.getD (d.month - 1) "") ++ " " ++ toString d.year

/-- The key form the specification describes for the monthly series: the
year and the zero-padded month joined by a dash, such as 2025-01. -/
def specMonthKey (d : CalDate) : String :=
  toString d.year ++ "-" ++ (if d.month < 10 then "0" else "") ++ toString d.month

/-- One step of the month accumulation of `loadAnalysisData`: look the
month key up in the insertion-ordered accumulator, create the entry with
zero sums on a first occurrence, then add the amount to the income sum
for an income transaction and to the expense sum otherwise.  Each entry
is (key, income sum, expense sum). -/
def addMonth (acc : List (String × ℚ × ℚ)) (t : Transaction) : List (String × ℚ × ℚ) :=
  let k := monthKey t.date
  if acc.any (fun e => e.1 = k) then
    acc.map (fun e =>
      if e.1 = k then
        if t.ttype = "income" then (e.1, e.2.1 + t.amount, e.2.2)
        else (e.1, e.2.1, e.2.2 + t.amount)
      else e)
  else
    if t.ttype = "income" then acc ++ [(k, t.amount, 0)]
    else acc ++ [(k, 0, t.amount)]

/-- The monthly series of `loadAnalysisData`: the month accumulation over
all transactions, emitted in insertion order of the first occurrence of
each month key (JavaScript `Object.entries` order). -/
def monthlySeries (ts : List Transaction) : List (String × ℚ × ℚ) :=
  ts.foldl addMonth []

/-- The month keys of a transaction list in first-occurrence order, used
to state what `monthlySeries` emits. -/
def monthKeysFO (ts : List Transaction) : List String :=
  ts.foldl (fun acc t => if monthKey t.date ∈ acc then acc else acc ++ [monthKey t.date]) []

/-- Income accumulated for one month key: the sum of the amounts of the
income transactions whose date has that key. -/
def incomeSumAt (ts : List Transaction) (k : String) : ℚ :=
  ((ts.filter (fun t => monthKey t.date = k ∧ t.ttype = "income")).map
    (fun t => t.amount)).sum

/-- Expense accumulated for one month key: the sum of the amounts of the
non-income transactions whose date has that key (the page adds every
non-income transaction to the expense sum). -/
def expenseSumAt (ts : List Transaction) (k : String) : ℚ :=
  ((ts.filter (fun t => monthKey t.date = k ∧ ¬ t.ttype = "income")).map
    (fun t => t.amount)).sum

/-- Declarative description of the monthly series: one entry per month
key in first-occurrence order carrying the income and expense sums of
that month. -/
def monthlySeriesSpec (ts : List Transaction) : List (String × ℚ × ℚ) :=
  (monthKeysFO ts).map (fun k => (k, incomeSumAt ts k, expenseSumAt ts k))

/-- Character-level embedding of the global regex replacement
`stringValue.replace(/"/g, '""')` of `exportToCSV` in `ExportData.tsx`:
every double-quote character is doubled, every other character is kept. -/
def doubleQuotes : List Char → List Char
  | [] => []
  | c :: cs =>
      if c = '\"' then '\"' :: '\"' :: doubleQuotes cs
      else c :: doubleQuotes cs

/-- One CSV field of `exportToCSV` in `ExportData.tsx`: a null or
undefined value renders as the empty string; otherwise the string form of
the value is wrapped in double quotes with internal double-quotes doubled
when it contains a comma, a double-quote or a newline
(`stringValue.includes(',') || stringValue.includes('"') ||
stringValue.includes('\n')`), and rendered verbatim otherwise.  The input
is the string form of the field value, or none for null/undefined. -/
def csvField : Option String → String
  | none => ""
  | some s =>
      if s.toList.contains ',' || s.toList.contains '\"' || s.toList.contains '\n' then
        "\"" ++ String.mk (doubleQuotes s.toList) ++ "\""
      else s

/-- The `formatDate` helper of the Transactions page: an input that
contains a dash and whose first dash-separated segment has length two is
treated as DD-MM-YYYY and rearranged to YYYY-MM-DD; any other input is
returned verbatim.  A missing segment renders as the string undefined,
as the JavaScript template literal would. -/
def formatDate (input : String) : String :=
  let parts := (input.toList.splitOn '-').map String.mk
  if input.toList.contains '-' && ((parts.headD "").length == 2) then
    (parts.getD 2 "undefined") ++ "-" ++ (parts.getD 1 "undefined") ++ "-" ++
      (parts.getD 0 "undefined")
  else input

/-- The transaction form data submitted through `handleSubmit` of the
Transactions page; the date field is the free-text date input. -/
structure TxForm where
  ttype : String
  amount : ℚ
  category : String
  description : String
  date : String
deriving DecidableEq, Repr

/-- A transaction row at the store boundary: the date is the string the
client sends for the date-typed column. -/
structure TxRow where
  ttype : String
  amount : ℚ
  category : String
  description : String
  date : String
deriving DecidableEq, Repr

/-- The insert path of `handleSubmit` of the Transactions page combined
with the store contract of the migration: the client formats the date
with `formatDate` and performs no further validation; the insert targets
the date-typed column `transactions.date date NOT NULL`, so the store
accepts the row exactly when the sent date string parses as a calendar
date (`validDate` abstracts that parser).  On a store error the catch
block alerts and leaves the stored rows unchanged.  The result is the
stored rows after the submission and whether a row was stored. -/
def submitTransaction (validDate : String → Bool) (stored : List TxRow)
    (form : TxForm) : List TxRow × Bool :=
  let formatted := formatDate form.date
  if validDate formatted then
    (stored ++ [⟨form.ttype, form.amount, form.category, form.description, formatted⟩],
     true)
  else (stored, false)

/-- The pending-bill count of `loadDashboardData` in `Dashboard.tsx`: the
page fetches `bills` with the server-side filter `eq('status', 'pending')`
on the stored status column and reports the length of the result, with no
due-date derivation. -/
def dashboardPendingBills (bills : List Bill) : Nat :=
  (bills.filter (fun b => b.status = BillStatus.pending)).length

/-- The per-user store state the goal deletion acts on. -/
structure FinanceDB where
  goals : List Goal
  investments : List Investment
deriving DecidableEq, Repr

/-- The referential action of the migration column
`goal_id uuid REFERENCES goals(id) ON DELETE SET NULL` applied to one
investment row when the goal `gid` is deleted. -/
def clearGoalRef (gid : String) (i : Investment) : Investment :=
  if i.goal_id = some gid then { i with goal_id := none } else i

/-- The `deleteGoal` operation of `InvestmentGoals.tsx` together with the
migration semantics: `supabase.from('goals').delete().eq('id', id)`
removes the goal rows with that id, and the ON DELETE SET NULL action of
`investments.goal_id` clears the reference in every linked investment
row; no investment row is removed. -/
def deleteGoal (db : FinanceDB) (gid : String) : FinanceDB :=
  { goals := db.goals.filter (fun g => ¬ g.id = gid),
    investments := db.investments.map (clearGoalRef gid) }

/-! ### Helper lemmas -/

/-- A left fold that adds a projection of each element equals the initial
value plus the sum of the mapped list. -/
theorem foldl_add_eq_sum {α : Type} (f : α → ℚ) (l : List α) (a : ℚ) :
    l.foldl (fun s x => s + f x) a = a + (l.map f).sum := by
  induction l generalizing a with
  | nil => simp
  | cons x xs ih => simp [ih]; ring

/-! ### C1: a paid bill is never downgraded -/

/-- C1: for every bill whose stored status is paid and for every value of
today and of the due date, the status derived by the Bills pages is paid:
the derivation never overrides a paid bill. -/
theorem paidStatusAuthoritative (b : Bill) (today : CalDate)
    (h : b.status = BillStatus.paid) :
    (resolveStatus today b).status = BillStatus.paid := by
  simp [resolveStatus, h]

/-- Instance of `paidStatusAuthoritative` at a concrete paid bill and a
concrete today far past the due date. -/
theorem paidStatusAuthoritative_witness :
    (Bill.mk "b1" "rent" 100 ⟨2025, 1, 1⟩ BillStatus.paid "rent" false).status
        = BillStatus.paid ∧
    (resolveStatus ⟨2025, 6, 1⟩
        (Bill.mk "b1" "rent" 100 ⟨2025, 1, 1⟩ BillStatus.paid "rent" false)).status
        = BillStatus.paid :=
  ⟨rfl, paidStatusAuthoritative _ ⟨2025, 6, 1⟩ rfl⟩

/-! ### C3: status of a non-paid bill -/

/-- C3 counterexample: a bill stored as overdue whose due date is not
before today keeps status overdue, while the claim says a non-paid bill
resolves to pending whenever the due date is not strictly before today. -/
theorem storedOverdueKept_cex :
    (Bill.mk "b2" "power" 50 ⟨2025, 12, 31⟩ BillStatus.overdue "utilities"
        false).status ≠ BillStatus.paid ∧
    calLt ⟨2025, 12, 31⟩ ⟨2025, 1, 1⟩ = false ∧
    (resolveStatus ⟨2025, 1, 1⟩
        (Bill.mk "b2" "power" 50 ⟨2025, 12, 31⟩ BillStatus.overdue "utilities"
          false)).status = BillStatus.overdue ∧
    (resolveStatus ⟨2025, 1, 1⟩
        (Bill.mk "b2" "power" 50 ⟨2025, 12, 31⟩ BillStatus.overdue "utilities"
          false)).status ≠ BillStatus.pending := by
  refine ⟨by decide, by decide, ?_, ?_⟩ <;> simp [resolveStatus, calLt]

/-- C3 amended: for every bill whose stored status is not paid, the
derived status is overdue exactly when the due date is strictly before
today (date-only) or the stored status is already overdue; when the due
date is not before today the bill is returned with its stored status
unchanged; in particular a stored pending bill whose due date is before
today resolves to overdue. -/
theorem resolveStatusNonPaid (b : Bill) (today : CalDate)
    (h : b.status ≠ BillStatus.paid) :
    ((resolveStatus today b).status = BillStatus.overdue ↔
      (calLt b.dueDate today = true ∨ b.status = BillStatus.overdue)) ∧
    (calLt b.dueDate today = false → resolveStatus today b = b) ∧
    (b.status = BillStatus.pending → calLt b.dueDate today = true →
      (resolveStatus today b).status = BillStatus.overdue) := by
  cases hb : b.status with
  | paid => exact absurd hb h
  | pending => cases hc : calLt b.dueDate today <;> simp [resolveStatus, hb, hc]
  | overdue => cases hc : calLt b.dueDate today <;> simp [resolveStatus, hb, hc]

/-- Instance of `resolveStatusNonPaid` at the scenario of the claim: a
bill stored pending with due date the day before today is derived
overdue. -/
theorem resolveStatusNonPaid_witness :
    (Bill.mk "b3" "water" 20 ⟨2025, 5, 31⟩ BillStatus.pending "utilities"
        false).status = BillStatus.pending ∧
    calLt ⟨2025, 5, 31⟩ ⟨2025, 6, 1⟩ = true ∧
    (resolveStatus ⟨2025, 6, 1⟩
        (Bill.mk "b3" "water" 20 ⟨2025, 5, 31⟩ BillStatus.pending "utilities"
          false)).status = BillStatus.overdue :=
  ⟨rfl, by decide,
    (resolveStatusNonPaid _ ⟨2025, 6, 1⟩ (by decide)).2.2 rfl (by decide)⟩

/-! ### C2: goal progress at a zero target -/

/-- C2: the goal card of `InvestmentGoals.tsx` computes
`(current / target) * 100` with no special case, so the goal with target
0 and current 0 displays NaN percent, not the 0 percent the claim and the
specification require. -/
theorem goalProgressZeroTargetIsNaN :
    goalProgress (Goal.mk "g1" "emergency" 0 0 none "general" "") = JsNum.nan ∧
    goalProgress (Goal.mk "g1" "emergency" 0 0 none "general" "") ≠ JsNum.num 0 := by
  constructor <;> simp [goalProgress, jsDiv, jsMul]

/-! ### C4: category percentage at a zero total -/

/-- C4: `loadAnalysisData` computes `(amount / totalForType) * 100` with
no special case for a zero total, so a single income transaction of
amount 0 produces a breakdown row whose percentage is NaN, not the 0
percent the claim and the specification require. -/
theorem categoryBreakdownZeroTotalIsNaN :
    totalForType [Transaction.mk "t1" "income" 0 "salary" "" ⟨2025, 1, 15⟩]
        "income" = 0 ∧
    categoryBreakdown [Transaction.mk "t1" "income" 0 "salary" "" ⟨2025, 1, 15⟩]
        "income" = [("salary", 0, JsNum.nan)] := by
  constructor
  · simp [totalForType]
  · simp [categoryBreakdown, categoryTotals, addCat, totalForType, jsDiv, jsMul]

/-! ### C5: net worth formula -/

/-- C5: for every transaction list and investment list, the net worth of
the Dashboard equals the sum of the income amounts minus the sum of the
expense amounts plus the sum of the investment current values, and with
an empty investment list it equals total income minus total expenses. -/
theorem netWorthFormula (ts : List Transaction) (is : List Investment) :
    netWorth ts is =
      ((ts.filter (fun t => t.ttype = "income")).map (fun t => t.amount)).sum
        - ((ts.filter (fun t => t.ttype = "expense")).map (fun t => t.amount)).sum
        + (is.map (fun i => i.current_value)).sum ∧
    netWorth ts [] = totalIncome ts - totalExpenses ts := by
  constructor
  · simp [netWorth, totalIncome, totalExpenses, investmentValue,
      foldl_add_eq_sum]
  · simp [netWorth, investmentValue]

/-! ### C6: deleting a goal preserves its investments -/

/-- C6: deleting a goal removes no investment row: the row count is
preserved, every investment reappears with identifier, name, type,
amounts and purchase date unchanged, a reference to the deleted goal is
cleared to none, and any other reference is untouched. -/
theorem deleteGoalPreservesInvestments (db : FinanceDB) (gid : String)
    (i : Investment) (hmem : i ∈ db.investments) :
    (deleteGoal db gid).investments.length = db.investments.length ∧
    clearGoalRef gid i ∈ (deleteGoal db gid).investments ∧
    (clearGoalRef gid i).id = i.id ∧
    (clearGoalRef gid i).name = i.name ∧
    (clearGoalRef gid i).itype = i.itype ∧
    (clearGoalRef gid i).amount_invested = i.amount_invested ∧
    (clearGoalRef gid i).current_value = i.current_value ∧
    (clearGoalRef gid i).purchase_date = i.purchase_date ∧
    (i.goal_id = some gid → (clearGoalRef gid i).goal_id = none) ∧
    (¬ i.goal_id = some gid → clearGoalRef gid i = i) := by
  refine ⟨by simp [deleteGoal], List.mem_map_of_mem _ hmem, ?_, ?_, ?_, ?_, ?_, ?_, ?_, ?_⟩
  all_goals unfold clearGoalRef
  all_goals split
  all_goals simp_all

/-- Instance of `deleteGoalPreservesInvestments` at a store holding one
goal and one investment linked to it. -/
theorem deleteGoalPreservesInvestments_witness :
    (Investment.mk "i1" "fund" "stocks" 10 12 ⟨2024, 3, 1⟩ (some "g7"))
      ∈ (FinanceDB.mk [Goal.mk "g7" "house" 100 10 none "property" ""]
          [Investment.mk "i1" "fund" "stocks" 10 12 ⟨2024, 3, 1⟩ (some "g7")]).investments ∧
    (deleteGoal
        (FinanceDB.mk [Goal.mk "g7" "house" 100 10 none "property" ""]
          [Investment.mk "i1" "fund" "stocks" 10 12 ⟨2024, 3, 1⟩ (some "g7")])
        "g7").investments.length = 1 ∧
    (clearGoalRef "g7"
        (Investment.mk "i1" "fund" "stocks" 10 12 ⟨2024, 3, 1⟩ (some "g7"))).goal_id
      = none := by
  refine ⟨List.mem_singleton.mpr rfl, ?_, ?_⟩
  · exact (deleteGoalPreservesInvestments _ "g7" _
      (List.mem_singleton.mpr rfl)).1
  · exact (deleteGoalPreservesInvestments
      (FinanceDB.mk [Goal.mk "g7" "house" 100 10 none "property" ""]
        [Investment.mk "i1" "fund" "stocks" 10 12 ⟨2024, 3, 1⟩ (some "g7")]) "g7" _
      (List.mem_singleton.mpr rfl)).2.2.2.2.2.2.2.2.1 rfl

/-! ### C7: CSV field serialization -/

/-- Boolean containment on a character list agrees with membership. -/
theorem contains_iff_mem (l : List Char) (c : Char) :
    l.contains c = true ↔ c ∈ l := by
  simp [List.contains]

/-- `doubleQuotes` emits two double-quote characters for every
double-quote of the input and keeps every other character. -/
theorem doubleQuotes_eq_flatMap (l : List Char) :
    doubleQuotes l = l.flatMap (fun c => if c = '\"' then ['\"', '\"'] else [c]) := by
  induction l with
  | nil => rfl
  | cons c cs ih =>
      by_cases hc : c = '\"' <;> simp [doubleQuotes, hc, ih]

/-- C7: a null or missing field value renders as the empty string; a
string value containing a comma, a double-quote or a newline renders
wrapped in double quotes with every internal double-quote doubled; every
other value renders verbatim. -/
theorem csvFieldSpec :
    csvField none = "" ∧
    ∀ s : String,
      ((',' ∈ s.toList ∨ '\"' ∈ s.toList ∨ '\n' ∈ s.toList) →
        csvField (some s) =
          "\"" ++ String.mk
            (s.toList.flatMap (fun c => if c = '\"' then ['\"', '\"'] else [c])) ++ "\"") ∧
      (¬ (',' ∈ s.toList ∨ '\"' ∈ s.toList ∨ '\n' ∈ s.toList) →
        csvField (some s) = s) := by
  refine ⟨rfl, fun s => ⟨fun h => ?_, fun h => ?_⟩⟩
  · rw [← doubleQuotes_eq_flatMap]
    have hb : (s.toList.contains ',' || s.toList.contains '\"'
        || s.toList.contains '\n') = true := by
      simp only [Bool.or_eq_true, contains_iff_mem]
      tauto
    simp only [csvField]
    rw [if_pos hb]
  · have hb : ¬ ((s.toList.contains ',' || s.toList.contains '\"'
        || s.toList.contains '\n') = true) := by
      simp only [Bool.or_eq_true, contains_iff_mem]
      tauto
    simp only [csvField]
    rw [if_neg hb]

/-- Instance of `csvFieldSpec`: a value containing a comma and a
double-quote is quoted with the internal double-quote doubled, and a
plain value is rendered verbatim. -/
theorem csvFieldSpec_witness :
    (',' ∈ ("a,\"b" : String).toList ∨ '\"' ∈ ("a,\"b" : String).toList ∨
      '\n' ∈ ("a,\"b" : String).toList) ∧
    csvField (some "a,\"b") = "\"a,\"\"b\"" ∧
    ¬ (',' ∈ ("plain" : String).toList ∨ '\"' ∈ ("plain" : String).toList ∨
      '\n' ∈ ("plain" : String).toList) ∧
    csvField (some "plain") = "plain" := by
  refine ⟨Or.inl (by decide), ?_, by decide, ?_⟩
  · rw [(csvFieldSpec.2 "a,\"b").1 (Or.inl (by decide))]
    decide
  · exact (csvFieldSpec.2 "plain").2 (by decide)

/-! ### C9: malformed dates are never stored -/

/-- C9: for every date string whose formatted value is not accepted by
the date-typed store column as a calendar date, the submission fails and
the stored rows are unchanged, so no record containing the unparseable
date value is ever stored. -/
theorem invalidDateNotStored (validDate : String → Bool) (stored : List TxRow)
    (form : TxForm) (h : validDate (formatDate form.date) = false) :
    (submitTransaction validDate stored form).1 = stored ∧
    (submitTransaction validDate stored form).2 = false ∧
    ∀ r, r ∈ (submitTransaction validDate stored form).1 → r ∈ stored := by
  refine ⟨?_, ?_, ?_⟩ <;> simp [submitTransaction, h]

/-- Instance of `invalidDateNotStored` with a store accepting only the
date 2025-01-01 and the unparseable submitted date banana, which
`formatDate` forwards verbatim. -/
theorem invalidDateNotStored_witness :
    (fun s => s == "2025-01-01") (formatDate "banana") = false ∧
    (submitTransaction (fun s => s == "2025-01-01") []
        (TxForm.mk "expense" 5 "food" "x" "banana")).1 = [] := by
  refine ⟨by decide, ?_⟩
  exact (invalidDateNotStored (fun s => s == "2025-01-01") []
    (TxForm.mk "expense" 5 "food" "x" "banana") (by decide)).1

/-! ### C10: the Dashboard pending count ignores due dates -/

/-- C10: the Dashboard counts exactly the bills whose stored status is
pending, for every value of today, with no due-date derivation; a stored
pending bill whose due date is before today is still counted there even
though the Bills page derives status overdue for the same bill. -/
theorem dashboardPendingStoredOnly (bills : List Bill) (today : CalDate) :
    dashboardPendingBills bills
      = (bills.filter (fun b => b.status = BillStatus.pending)).length ∧
    ∀ b, b ∈ bills → b.status = BillStatus.pending →
      calLt b.dueDate today = true →
      b ∈ bills.filter (fun b => b.status = BillStatus.pending) ∧
      (resolveStatus today b).status = BillStatus.overdue := by
  refine ⟨rfl, fun b hmem hstatus hdue => ⟨?_, ?_⟩⟩
  · simp [List.mem_filter, hmem, hstatus]
  · simp [resolveStatus, hstatus, hdue]

/-- Instance of `dashboardPendingStoredOnly`: one stored pending bill due
before today is counted as pending by the Dashboard and derived overdue
by the Bills page. -/
theorem dashboardPendingStoredOnly_witness :
    dashboardPendingBills
        [Bill.mk "b9" "net" 30 ⟨2025, 1, 1⟩ BillStatus.pending "utilities" false]
      = 1 ∧
    (resolveStatus ⟨2025, 6, 1⟩
        (Bill.mk "b9" "net" 30 ⟨2025, 1, 1⟩ BillStatus.pending "utilities"
          false)).status = BillStatus.overdue := by
  constructor
  · rw [(dashboardPendingStoredOnly
      [Bill.mk "b9" "net" 30 ⟨2025, 1, 1⟩ BillStatus.pending "utilities" false]
      ⟨2025, 6, 1⟩).1]
    decide
  · exact ((dashboardPendingStoredOnly
      [Bill.mk "b9" "net" 30 ⟨2025, 1, 1⟩ BillStatus.pending "utilities" false]
      ⟨2025, 6, 1⟩).2 _ (List.mem_singleton.mpr rfl) rfl (by decide)).2

/-! ### C8: monthly series -/

/-- C8 counterexample: the key emitted by the monthly grouping for a
transaction dated 2025-01-15 is Jan 2025, the en-US short-month format,
and not the key 2025-01 of the form the claim describes. -/
theorem monthKeyNotIso_cex :
    monthlySeries [Transaction.mk "t2" "income" 1000 "salary" "" ⟨2025, 1, 15⟩]
      = [("Jan 2025", 1000, 0)] ∧
    specMonthKey ⟨2025, 1, 15⟩ = "2025-01" ∧
    ("Jan 2025" : String) ≠ "2025-01" := by
  refine ⟨?_, by decide, by decide⟩
  simp [monthlySeries, addMonth, monthKey, monthShortNamesEn]
  decide

/-- Folding one more transaction into the monthly series. -/
theorem monthlySeries_append (ts : List Transaction) (t : Transaction) :
    monthlySeries (ts ++ [t]) = addMonth (monthlySeries ts) t := by
  simp [monthlySeries, List.foldl_append]

/-- Folding one more transaction into the first-occurrence key list. -/
theorem monthKeysFO_append (ts : List Transaction) (t : Transaction) :
    monthKeysFO (ts ++ [t]) =
      if monthKey t.date ∈ monthKeysFO ts then monthKeysFO ts
      else monthKeysFO ts ++ [monthKey t.date] := by
  simp [monthKeysFO, List.foldl_append]

/-- Auxiliary membership description of the first-occurrence fold. -/
theorem mem_monthKeysFO_aux (k : String) :
    ∀ (ts : List Transaction) (acc : List String),
      k ∈ ts.foldl
          (fun acc t => if monthKey t.date ∈ acc then acc
            else acc ++ [monthKey t.date]) acc
        ↔ k ∈ acc ∨ k ∈ ts.map (fun t => monthKey t.date)
  | [], acc => by simp
  | t :: ts, acc => by
      simp only [List.foldl_cons, List.map_cons, List.mem_cons]
      rw [mem_monthKeysFO_aux k ts]
      by_cases hm : monthKey t.date ∈ acc
      · rw [if_pos hm]
        constructor
        · tauto
        · rintro (h | h | h)
          · exact Or.inl h
          · exact Or.inl (h ▸ hm)
          · exact Or.inr h
      · rw [if_neg hm]
        simp only [List.mem_append, List.mem_singleton]
        tauto

/-- A key occurs in the first-occurrence list exactly when some
transaction has that month key. -/
theorem mem_monthKeysFO (ts : List Transaction) (k : String) :
    k ∈ monthKeysFO ts ↔ k ∈ ts.map (fun t => monthKey t.date) := by
  simpa [monthKeysFO] using mem_monthKeysFO_aux k ts []

/-- Appending one transaction adds its amount to a keyed filtered sum
exactly when the key and the side condition match. -/
theorem sum_filter_key_append (ts : List Transaction) (t : Transaction)
    (k : String) (p : Transaction → Prop) [DecidablePred p] :
    (((ts ++ [t]).filter (fun x => monthKey x.date = k ∧ p x)).map
        (fun x => x.amount)).sum
      = ((ts.filter (fun x => monthKey x.date = k ∧ p x)).map
          (fun x => x.amount)).sum
        + (if monthKey t.date = k ∧ p t then t.amount else 0) := by
  rw [List.filter_append, List.map_append, List.sum_append]
  congr 1
  by_cases h : monthKey t.date = k ∧ p t <;> simp [List.filter_cons, h]

/-- A keyed filtered sum is zero when no transaction has the key. -/
theorem sum_filter_key_eq_zero (k : String) (p : Transaction → Prop)
    [DecidablePred p] :
    ∀ ts : List Transaction, ¬ k ∈ ts.map (fun t => monthKey t.date) →
      ((ts.filter (fun x => monthKey x.date = k ∧ p x)).map
        (fun x => x.amount)).sum = 0
  | [], _ => rfl
  | t :: ts, h => by
      simp only [List.map_cons, List.mem_cons, not_or] at h
      rw [List.filter_cons]
      have hc : ¬ (monthKey t.date = k ∧ p t) := fun hc => h.1 hc.1.symm
      rw [if_neg (by simpa using hc)]
      exact sum_filter_key_eq_zero k p ts h.2

/-- Appending one transaction to the income sum of a month. -/
theorem incomeSumAt_append (ts : List Transaction) (t : Transaction) (k : String) :
    incomeSumAt (ts ++ [t]) k =
      incomeSumAt ts k +
        (if monthKey t.date = k ∧ t.ttype = "income" then t.amount else 0) :=
  sum_filter_key_append ts t k (fun x => x.ttype = "income")

/-- Appending one transaction to the expense sum of a month. -/
theorem expenseSumAt_append (ts : List Transaction) (t : Transaction) (k : String) :
    expenseSumAt (ts ++ [t]) k =
      expenseSumAt ts k +
        (if monthKey t.date = k ∧ ¬ t.ttype = "income" then t.amount else 0) :=
  sum_filter_key_append ts t k (fun x => ¬ x.ttype = "income")

/-- The income sum of an absent month key is zero. -/
theorem incomeSumAt_eq_zero (ts : List Transaction) (k : String)
    (h : ¬ k ∈ ts.map (fun t => monthKey t.date)) : incomeSumAt ts k = 0 :=
  sum_filter_key_eq_zero k (fun x => x.ttype = "income") ts h

/-- The expense sum of an absent month key is zero. -/
theorem expenseSumAt_eq_zero (ts : List Transaction) (k : String)
    (h : ¬ k ∈ ts.map (fun t => monthKey t.date)) : expenseSumAt ts k = 0 :=
  sum_filter_key_eq_zero k (fun x => ¬ x.ttype = "income") ts h

/-- C8 amended: the monthly series groups all transactions by the
calendar month of their date using the fixed en-US short-month key
(month short name, a space, the year — not a key of the form YYYY-MM),
accumulating per month the income sum and the sum of all non-income
(expense) transactions, and emits the months in insertion order of the
first occurrence of each month key. -/
theorem monthlySeriesCharacterization (ts : List Transaction) :
    monthlySeries ts = monthlySeriesSpec ts := by
  induction ts using List.reverseRecOn with
  | nil => rfl
  | append_singleton ts t ih =>
      rw [monthlySeries_append, ih]
      unfold monthlySeriesSpec
      rw [monthKeysFO_append]
      by_cases hk : monthKey t.date ∈ monthKeysFO ts
      · rw [if_pos hk]
        simp only [addMonth]
        have hany : (((monthKeysFO ts).map
            (fun k => (k, incomeSumAt ts k, expenseSumAt ts k))).any
              (fun e => e.1 = monthKey t.date)) = true := by
          rw [List.any_eq_true]
          exact ⟨(monthKey t.date, incomeSumAt ts (monthKey t.date),
            expenseSumAt ts (monthKey t.date)),
            List.mem_map_of_mem _ hk, by simp⟩
        rw [if_pos hany, List.map_map]
        refine List.map_congr_left fun k' hk' => ?_
        simp only [Function.comp]
        by_cases hkk : k' = monthKey t.date
        · subst hkk
          rw [incomeSumAt_append, expenseSumAt_append]
          by_cases hty : t.ttype = "income" <;> simp [hty]
        · rw [incomeSumAt_append, expenseSumAt_append]
          have h1 : ¬ (monthKey t.date = k' ∧ t.ttype = "income") :=
            fun hc => hkk hc.1.symm
          have h2 : ¬ (monthKey t.date = k' ∧ ¬ t.ttype = "income") :=
            fun hc => hkk hc.1.symm
          rw [if_neg h1, if_neg h2]
          simp [hkk]
      · rw [if_neg hk]
        simp only [addMonth]
        have hany : (((monthKeysFO ts).map
            (fun k => (k, incomeSumAt ts k, expenseSumAt ts k))).any
              (fun e => e.1 = monthKey t.date)) = false := by
          rw [List.any_eq_false]
          intro e he
          obtain ⟨k', hk', rfl⟩ := List.mem_map.mp he
          exact fun hc => hk ((by simpa using hc : k' = monthKey t.date) ▸ hk')
        rw [if_neg (by simp [hany])]
        have hnotmem : ¬ monthKey t.date ∈ ts.map (fun x => monthKey x.date) :=
          fun hc => hk ((mem_monthKeysFO ts _).mpr hc)
        have hpre : (monthKeysFO ts).map
            (fun k => (k, incomeSumAt (ts ++ [t]) k, expenseSumAt (ts ++ [t]) k))
            = (monthKeysFO ts).map
              (fun k => (k, incomeSumAt ts k, expenseSumAt ts k)) := by
          refine List.map_congr_left fun k' hk' => ?_
          have hkk : ¬ monthKey t.date = k' := fun hc => hk (hc ▸ hk')
          rw [incomeSumAt_append, expenseSumAt_append,
            if_neg (fun hc => hkk hc.1), if_neg (fun hc => hkk hc.1)]
          simp
        rw [List.map_append, hpre]
        have hlast1 : incomeSumAt (ts ++ [t]) (monthKey t.date)
            = (if t.ttype = "income" then t.amount else 0) := by
          rw [incomeSumAt_append, incomeSumAt_eq_zero ts _ hnotmem]
          by_cases hty : t.ttype = "income" <;> simp [hty]
        have hlast2 : expenseSumAt (ts ++ [t]) (monthKey t.date)
            = (if t.ttype = "income" then 0 else t.amount) := by
          rw [expenseSumAt_append, expenseSumAt_eq_zero ts _ hnotmem]
          by_cases hty : t.ttype = "income" <;> simp [hty]
        by_cases hty : t.ttype = "income" <;>
          simp [hty, hlast1, hlast2]
